import Mathlib

/-!
Formal model of `src/strategy.py` (class `TradingStrategy`): technical
indicators, SMA-crossover signal generation and backtesting over a series
of Close prices.

Prices are modelled as rationals.  A pandas column becomes a `List ℚ`
when every entry is a number, and a `List (Option ℚ)` when entries can be
NaN (`none` = NaN).  Pandas NaN-propagation and skip-NaN aggregation
rules are made explicit in each definition; IEEE corner cases of the
source (division of a positive number by zero giving infinity, `0/0`
giving NaN) are encoded by explicit case splits where they matter (RSI).
-/

namespace TradingStrategy

/-- `Series.diff()`: first entry NaN, then consecutive differences
(`out[t] = xs[t] − xs[t−1]`). -/
def diffCol (xs : List ℚ) : List (Option ℚ) :=
  match xs with
  | [] => []
  | x :: rest => none :: List.zipWith (fun cur prev => some (cur - prev)) rest (x :: rest)

/-- `Series.rolling(window=w).mean()` (`min_periods` defaults to the window):
NaN for the first `w − 1` bars, then the arithmetic mean of the trailing
`w` entries ending at the current bar, inclusive. -/
def rollingMean (w : Nat) (xs : List ℚ) : List (Option ℚ) :=
  (List.range xs.length).map fun t =>
    if w ≤ t + 1 then some (((xs.drop (t + 1 - w)).take w).sum / (w : ℚ)) else none

/-- The mutable DataFrame threaded through the pipeline: the `Close`
column plus the derived columns that the signal/backtest stages read.
Columns not yet written by a stage are `[]`. -/
structure Frame where
  close : List ℚ
  sma_short : List (Option ℚ) := []
  sma_long : List (Option ℚ) := []
  signal : List ℚ := []
  position : List (Option ℚ) := []
  portfolio_value : List (Option ℚ) := []
deriving Repr, DecidableEq, Inhabited

/-- A fresh frame holding only the Close column. -/
def mkFrame (closes : List ℚ) : Frame := { close := closes }

/-- `calculate_moving_averages`: writes `SMA_short`/`SMA_long` as rolling
means of Close with the two configured windows, on a copy of the input. -/
def calculate_moving_averages (short_window long_window : Nat) (df : Frame) : Frame :=
  { df with
    sma_short := rollingMean short_window df.close
    sma_long := rollingMean long_window df.close }

/-- The per-bar Signal of `generate_signals`.  The column is initialised
to `0`; `data.loc[SMA_short > SMA_long] = 1` and
`data.loc[SMA_short <= SMA_long] = -1` both leave the cell untouched when
either operand is NaN, because a comparison with NaN is False. -/
def signalCell (a b : Option ℚ) : ℚ :=
  match a, b with
  | some a, some b => if a > b then 1 else -1
  | _, _ => 0

/-- `generate_signals`: SMA-crossover signal plus `Position = Signal.diff()`,
written on a copy of the input frame. -/
def generate_signals (df : Frame) : Frame :=
  let sig := List.zipWith signalCell df.sma_short df.sma_long
  { df with signal := sig, position := diffCol sig }

/-! ### RSI (`calculate_rsi`) -/

/-- `delta.where(delta > 0, 0)` applied per cell: a NaN delta (first bar)
compares False and is replaced by `0`. -/
def gainCell (d : Option ℚ) : ℚ :=
  match d with
  | some d => if 0 < d then d else 0
  | none => 0

/-- `(-delta.where(delta < 0, 0))` applied per cell. -/
def lossCell (d : Option ℚ) : ℚ :=
  match d with
  | some d => if d < 0 then -d else 0
  | none => 0

/-- Trailing mean of gains: `gain.rolling(window=period).mean()`. -/
def avgGain (period : Nat) (closes : List ℚ) : List (Option ℚ) :=
  rollingMean period ((diffCol closes).map gainCell)

/-- Trailing mean of losses. -/
def avgLoss (period : Nat) (closes : List ℚ) : List (Option ℚ) :=
  rollingMean period ((diffCol closes).map lossCell)

/-- One RSI cell: `100 - 100/(1 + g/l)` under IEEE float semantics for
nonnegative `g`, `l` (which average gains/losses always are).  `l > 0`
gives the finite formula; `l = 0 < g` gives `g/l = +inf`, so the
expression collapses to `100`; `g = l = 0` gives `0/0 = NaN`, which
propagates (`none`).  A NaN operand propagates to NaN. -/
def rsiCell (g l : Option ℚ) : Option ℚ :=
  match g, l with
  | some g, some l =>
      if 0 < l then some (100 - 100 / (1 + g / l))
      else if 0 < g then some 100
      else none
  | _, _ => none

/-- `calculate_rsi`: the RSI column produced from Close. -/
def calculate_rsi (period : Nat) (closes : List ℚ) : List (Option ℚ) :=
  List.zipWith rsiCell (avgGain period closes) (avgLoss period closes)

/-! ### MACD (`calculate_macd`) -/

/-- The smoothing factor `α = 2/(span+1)` used by `ewm(span=...)`. -/
def ewmAlpha (span : Nat) : ℚ := 2 / ((span : ℚ) + 1)

/-- `Series.ewm(span=span).mean()` with the pandas default `adjust=True`:
`EMA[t] = (Σ_{i≤t} (1−α)^i · x[t−i]) / (Σ_{i≤t} (1−α)^i)`.  Defined from
the very first bar (`min_periods` defaults to 0). -/
def ewmMean (span : Nat) (xs : List ℚ) : List ℚ :=
  (List.range xs.length).map fun t =>
    (∑ i in Finset.range (t + 1), (1 - ewmAlpha span) ^ i * xs.getD (t - i) 0)
    / (∑ i in Finset.range (t + 1), (1 - ewmAlpha span) ^ i)

/-- The columns written by `calculate_macd`. -/
structure MacdFrame where
  ema_fast : List ℚ
  ema_slow : List ℚ
  macd : List ℚ
  signal_line : List ℚ
  macd_hist : List ℚ
deriving Repr, DecidableEq

/-- `calculate_macd`: fast/slow EMAs of Close, their difference, the EMA
of that difference, and the histogram. -/
def calculate_macd (fast slow sig : Nat) (closes : List ℚ) : MacdFrame :=
  let ef := ewmMean fast closes
  let es := ewmMean slow closes
  let m := List.zipWith (· - ·) ef es
  let sl := ewmMean sig m
  { ema_fast := ef, ema_slow := es, macd := m, signal_line := sl
    macd_hist := List.zipWith (· - ·) m sl }

/-! ### Backtest (`backtest`) -/

/-- `Close.pct_change()`: NaN at bar 0, then `(x[t] − x[t−1]) / x[t−1]`. -/
def pct_change (xs : List ℚ) : List (Option ℚ) :=
  match xs with
  | [] => []
  | x :: rest => none :: List.zipWith (fun cur prev => some ((cur - prev) / prev)) rest (x :: rest)

/-- `Series.shift(1)`: NaN at bar 0, then the previous entry. -/
def shift1 (xs : List ℚ) : List (Option ℚ) :=
  match xs with
  | [] => []
  | _ :: _ => none :: xs.dropLast.map some

/-- NaN-propagating product of two cells. -/
def mulCell (a b : Option ℚ) : Option ℚ :=
  match a, b with
  | some a, some b => some (a * b)
  | _, _ => none

/-- `Strategy_returns = Signal.shift(1) * Returns`. -/
def strategyReturns (closes sig : List ℚ) : List (Option ℚ) :=
  List.zipWith mulCell (shift1 sig) (pct_change closes)

/-- `Series.cumprod()` with the default `skipna=True`: a NaN entry stays
NaN in the output but does not interrupt the running product of the
non-NaN entries.  `acc` is the product accumulated so far. -/
def cumprodSkipNA (acc : ℚ) : List (Option ℚ) → List (Option ℚ)
  | [] => []
  | none :: xs => none :: cumprodSkipNA acc xs
  | some v :: xs => some (acc * v) :: cumprodSkipNA (acc * v) xs

/-- `Cumulative_returns = (1 + Strategy_returns).cumprod()`. -/
def cumulativeReturns (closes sig : List ℚ) : List (Option ℚ) :=
  cumprodSkipNA 1 ((strategyReturns closes sig).map (Option.map (fun r => 1 + r)))

/-- `Portfolio_value = initial_capital * Cumulative_returns`. -/
def portfolioCol (closes sig : List ℚ) (initial_capital : ℚ) : List (Option ℚ) :=
  (cumulativeReturns closes sig).map (Option.map (fun c => initial_capital * c))

/-- `Series.iloc[-1]` on a column that may hold NaN (the claims only use
it on series of length ≥ 2, where the column is nonempty). -/
def ilocLast (xs : List (Option ℚ)) : Option ℚ := xs.getLastD none

/-- `Series.expanding().max()` (skipna): running maximum of the non-NaN
entries seen so far; NaN until the first non-NaN entry. -/
def cummaxSkipNA (acc : Option ℚ) : List (Option ℚ) → List (Option ℚ)
  | [] => []
  | none :: xs => acc :: cummaxSkipNA acc xs
  | some v :: xs =>
      match acc with
      | none => some v :: cummaxSkipNA (some v) xs
      | some a => some (max a v) :: cummaxSkipNA (some (max a v)) xs

/-- One drawdown cell `(pv − m) / m`; NaN operands propagate. -/
def drawdownCell (pv m : Option ℚ) : Option ℚ :=
  match pv, m with
  | some pv, some m => some ((pv - m) / m)
  | _, _ => none

/-- `drawdown = (Portfolio_value - cummax) / cummax`. -/
def drawdownCol (pv : List (Option ℚ)) : List (Option ℚ) :=
  List.zipWith drawdownCell pv (cummaxSkipNA none pv)

/-- One step of a skip-NaN minimum: a NaN cell leaves the accumulator
alone, a value cell is folded in with `min`. -/
def minCell (acc x : Option ℚ) : Option ℚ :=
  match acc, x with
  | none, x => x
  | acc, none => acc
  | some a, some b => some (min a b)

/-- `Series.min()` (skipna): minimum of the non-NaN entries, NaN when
there are none. -/
def optMin (xs : List (Option ℚ)) : Option ℚ :=
  xs.foldl minCell none

/-- `Series.mean()` (skipna): mean of the non-NaN entries, NaN when there
are none. -/
def optMean (xs : List (Option ℚ)) : Option ℚ :=
  let ds := xs.filterMap id
  if ds.isEmpty then none else some (ds.sum / (ds.length : ℚ))

/-- The scalar report returned by `backtest`.  `annual_volatility` and
`sharpe_ratio` multiply by `sqrt 252`, which is irrational, so they are
outside the rational model; no claim refers to them and they are the only
fields omitted. -/
structure BacktestResults where
  total_return : Option ℚ
  annual_return : Option ℚ
  max_drawdown : Option ℚ
  final_portfolio_value : Option ℚ
  portfolio_value : List (Option ℚ)
deriving Repr, DecidableEq

/-- `backtest(data, initial_capital)`: the source performs no validation
of `initial_capital` (or of any window); it unconditionally computes
returns, the lagged strategy returns, the compounded portfolio path and
the summary scalars. -/
def backtest (closes sig : List ℚ) (initial_capital : ℚ) : BacktestResults :=
  let pv := portfolioCol closes sig initial_capital
  { total_return := (ilocLast pv).map (fun v => (v - initial_capital) / initial_capital)
    annual_return := (optMean (strategyReturns closes sig)).map (fun m => m * 252)
    max_drawdown := optMin (drawdownCol pv)
    final_portfolio_value := ilocLast pv
    portfolio_value := pv }

/-! ### A store model for the mutation claims

Python DataFrames are heap objects; `data = data.copy()` at the top of
every stage redirects all subsequent column writes to a fresh object.  To
state non-mutation of the caller's frame we model the heap as a list of
frames addressed by index: each stage allocates a copy of its argument,
writes its columns there and returns the reference to the copy. -/

/-- Heap of frames, addressed by position. -/
abbrev Store := List Frame

/-- Dereference (a dangling reference yields an inert empty frame). -/
def readF (st : Store) (r : Nat) : Frame := st.getD r (mkFrame [])

/-- In-place update of the frame at `r`. -/
def writeF (st : Store) (r : Nat) (f : Frame) : Store := st.set r f

/-- `data.copy()`: allocate a fresh frame with the same contents. -/
def allocF (st : Store) (f : Frame) : Store × Nat := (st ++ [f], st.length)

/-- `calculate_moving_averages` as a heap operation: copy, then write the
two SMA columns on the copy. -/
def calculate_moving_averages_st (short_window long_window : Nat)
    (st : Store) (dataRef : Nat) : Store × Nat :=
  let p := allocF st (readF st dataRef)
  let st1 := p.1
  let d := p.2
  (writeF st1 d (calculate_moving_averages short_window long_window (readF st1 d)), d)

/-- `generate_signals` as a heap operation. -/
def generate_signals_st (st : Store) (dataRef : Nat) : Store × Nat :=
  let p := allocF st (readF st dataRef)
  let st1 := p.1
  let d := p.2
  (writeF st1 d (generate_signals (readF st1 d)), d)

/-- `backtest` as a heap operation: copy, write the portfolio column on
the copy, return the scalar report. -/
def backtest_st (st : Store) (dataRef : Nat) (initial_capital : ℚ) :
    Store × BacktestResults :=
  let p := allocF st (readF st dataRef)
  let st1 := p.1
  let d := p.2
  let df := readF st1 d
  (writeF st1 d { df with portfolio_value := portfolioCol df.close df.signal initial_capital },
   backtest df.close df.signal initial_capital)

/-! ## Generic index lemmas -/

lemma getD_zipWith {α β γ : Type} (f : α → β → γ) (as : List α) (bs : List β)
    (t : Nat) (da : α) (db : β) (dc : γ) (h1 : t < as.length) (h2 : t < bs.length) :
    (List.zipWith f as bs).getD t dc = f (as.getD t da) (bs.getD t db) := by
  have h : t < (List.zipWith f as bs).length := by simp; omega
  rw [List.getD_eq_getElem _ _ h, List.getD_eq_getElem _ _ h1, List.getD_eq_getElem _ _ h2]
  exact List.getElem_zipWith

lemma getD_map_some {α : Type} (l : List α) (t : Nat) (d : α) (ht : t < l.length) :
    (l.map some).getD t none = some (l.getD t d) := by
  rw [List.getD_eq_getElem _ _ (by simp [ht]), List.getD_eq_getElem _ _ ht,
    List.getElem_map]

lemma getD_some_lt_length {α : Type} (l : List (Option α)) (t : Nat) (v : α)
    (h : l.getD t none = some v) : t < l.length := by
  by_contra hc
  rw [List.getD_eq_default _ _ (by omega)] at h
  cases h

/-! ## Rolling mean (`rolling(window).mean()`) -/

lemma length_rollingMean (w : Nat) (xs : List ℚ) :
    (rollingMean w xs).length = xs.length := by
  simp [rollingMean]

lemma rollingMean_getD (w : Nat) (xs : List ℚ) (t : Nat) (ht : t < xs.length) :
    (rollingMean w xs).getD t none =
      if w ≤ t + 1 then some (((xs.drop (t + 1 - w)).take w).sum / (w : ℚ)) else none := by
  have hlen : t < (rollingMean w xs).length := by rw [length_rollingMean]; exact ht
  rw [List.getD_eq_getElem _ _ hlen]
  simp [rollingMean]

lemma getD_drop (a : Nat) : ∀ (xs : List ℚ) (i : Nat),
    (xs.drop a).getD i 0 = xs.getD (a + i) 0 := by
  induction a with
  | zero => simp
  | succ n ih =>
      intro xs i
      cases xs with
      | nil => simp
      | cons x r => simpa [Nat.succ_add] using ih r i

lemma sum_take_eq (xs : List ℚ) (b : Nat) (hb : b ≤ xs.length) :
    (xs.take b).sum = ∑ i in Finset.range b, xs.getD i 0 := by
  induction b with
  | zero => simp
  | succ n ih =>
      have hn : n < xs.length := by omega
      rw [List.sum_take_succ xs n hn, ih (by omega), Finset.sum_range_succ,
        List.getD_eq_getElem _ _ hn]

lemma slice_sum (xs : List ℚ) (a w : Nat) (h : a + w ≤ xs.length) :
    ((xs.drop a).take w).sum = ∑ i in Finset.range w, xs.getD (a + i) 0 := by
  have h1 : w ≤ (xs.drop a).length := by simp; omega
  rw [sum_take_eq _ _ h1]
  exact Finset.sum_congr rfl fun i _ => getD_drop a xs i

/-- C5: for a series of length `n ≥ window` and a positive window, the
SMA columns written by `calculate_moving_averages` are undefined for the
first `window − 1` bars and from bar `window − 1` on equal the exact
arithmetic mean of Close over the trailing `window` bars, inclusive. -/
theorem C5_sma_trailing_mean (s l : Nat) (closes : List ℚ)
    (hs : 0 < s) (hsn : s ≤ closes.length) (hl : 0 < l) (hln : l ≤ closes.length) :
    (∀ t, t < s - 1 →
      (calculate_moving_averages s l (mkFrame closes)).sma_short.getD t none = none) ∧
    (∀ t, s - 1 ≤ t → t < closes.length →
      (calculate_moving_averages s l (mkFrame closes)).sma_short.getD t none =
        some ((∑ i in Finset.range s, closes.getD (t + 1 - s + i) 0) / (s : ℚ))) ∧
    (∀ t, t < l - 1 →
      (calculate_moving_averages s l (mkFrame closes)).sma_long.getD t none = none) ∧
    (∀ t, l - 1 ≤ t → t < closes.length →
      (calculate_moving_averages s l (mkFrame closes)).sma_long.getD t none =
        some ((∑ i in Finset.range l, closes.getD (t + 1 - l + i) 0) / (l : ℚ))) := by
  have main : ∀ w : Nat, 0 < w → w ≤ closes.length →
      (∀ t, t < w - 1 → (rollingMean w closes).getD t none = none) ∧
      (∀ t, w - 1 ≤ t → t < closes.length →
        (rollingMean w closes).getD t none =
          some ((∑ i in Finset.range w, closes.getD (t + 1 - w + i) 0) / (w : ℚ))) := by
    intro w hw hwn
    constructor
    · intro t htw
      rw [rollingMean_getD w closes t (by omega), if_neg (by omega)]
    · intro t htw htn
      rw [rollingMean_getD w closes t htn, if_pos (by omega),
        slice_sum closes (t + 1 - w) w (by omega)]
  refine ⟨(main s hs hsn).1, (main s hs hsn).2, (main l hl hln).1, (main l hl hln).2⟩

/-- C5 witness: `short_window = 2`, `long_window = 3`,
`Close = [100, 102, 101, 105, 107]`. -/
theorem C5_witness :
    (0 < 2 ∧ 2 ≤ 5 ∧ 0 < 3 ∧ 3 ≤ 5) ∧
    (calculate_moving_averages 2 3 (mkFrame [100, 102, 101, 105, 107])).sma_short.getD 0 none
      = none ∧
    (calculate_moving_averages 2 3 (mkFrame [100, 102, 101, 105, 107])).sma_short.getD 1 none
      = some 101 ∧
    (calculate_moving_averages 2 3 (mkFrame [100, 102, 101, 105, 107])).sma_long.getD 1 none
      = none ∧
    (calculate_moving_averages 2 3 (mkFrame [100, 102, 101, 105, 107])).sma_long.getD 2 none
      = some 101 := by
  have h := C5_sma_trailing_mean 2 3 [100, 102, 101, 105, 107]
    (by decide) (by decide) (by decide) (by decide)
  refine ⟨⟨by decide, by decide, by decide, by decide⟩, h.1 0 (by decide), ?_, ?_, ?_⟩
  · rw [h.2.1 1 (by decide) (by decide)]
    norm_num [Finset.sum_range_succ]
  · exact h.2.2.1 1 (by decide)
  · rw [h.2.2.2 2 (by decide) (by decide)]
    norm_num [Finset.sum_range_succ]

/-! ## Diff columns and the crossover signal -/

lemma length_diffCol (xs : List ℚ) : (diffCol xs).length = xs.length := by
  cases xs <;> simp [diffCol]

lemma diffCol_getD_zero (x : ℚ) (rest : List ℚ) :
    (diffCol (x :: rest)).getD 0 none = none := rfl

lemma diffCol_getD (xs : List ℚ) (t : Nat) (h0 : 0 < t) (ht : t < xs.length) :
    (diffCol xs).getD t none = some (xs.getD t 0 - xs.getD (t - 1) 0) := by
  cases xs with
  | nil => simp at ht
  | cons x rest =>
      obtain ⟨u, rfl⟩ : ∃ u, t = u + 1 := ⟨t - 1, by omega⟩
      have hu1 : u < rest.length := by simpa using ht
      have hu2 : u < (x :: rest).length := by simp; omega
      simp only [diffCol, List.getD_cons_succ]
      rw [getD_zipWith _ rest (x :: rest) u 0 0 none hu1 hu2]
      simp [List.getD_cons_succ]

lemma length_signal_col (df : Frame) (h : df.sma_short.length = df.sma_long.length) :
    (generate_signals df).signal.length = df.sma_short.length := by
  simp [generate_signals, h]

/-- C2 counterexample: with `short_window = 2`, `long_window = 3` and
`Close = [100, 102, 101, 105, 107]`, bar 1 is a leading bar (`SMA_long`
is still undefined there), yet the generated Signal at bar 1 is the
defined value `0` — not undefined as the claim states — and the Position
at bar 1 is the defined value `0` as well. -/
theorem C2_counterexample :
    (calculate_moving_averages 2 3 (mkFrame [100, 102, 101, 105, 107])).sma_long.getD 1 none
      = none ∧
    (generate_signals
      (calculate_moving_averages 2 3 (mkFrame [100, 102, 101, 105, 107]))).signal.getD 1 99
      = 0 ∧
    (generate_signals
      (calculate_moving_averages 2 3 (mkFrame [100, 102, 101, 105, 107]))).position.getD 1 none
      = some 0 := by
  refine ⟨?_, ?_, ?_⟩ <;>
    norm_num [generate_signals, calculate_moving_averages, mkFrame, rollingMean,
      signalCell, diffCol, List.range_succ]

/-- C2 (amended): where both SMAs are defined the Signal is `+1` when
`SMA_short > SMA_long` and `−1` otherwise (ties give `−1`); where either
SMA is undefined the Signal keeps its initialised value `0` (both `loc`
comparisons are False against NaN); `Position = Signal.diff()` is
undefined at bar 0 and equals `Signal[t] − Signal[t−1]` at every bar
`t ≥ 1`, whether or not the operand bars were leading bars. -/
theorem C2_signal_semantics (df : Frame)
    (hlen : df.sma_short.length = df.sma_long.length) :
    (∀ t a b, df.sma_short.getD t none = some a → df.sma_long.getD t none = some b →
      (generate_signals df).signal.getD t 0 = if a > b then 1 else -1) ∧
    (∀ t, t < df.sma_short.length →
      (df.sma_short.getD t none = none ∨ df.sma_long.getD t none = none) →
      (generate_signals df).signal.getD t 0 = 0) ∧
    (∀ x rest, (generate_signals df).signal = x :: rest →
      (generate_signals df).position.getD 0 none = none) ∧
    (∀ t, 0 < t → t < (generate_signals df).signal.length →
      (generate_signals df).position.getD t none =
        some ((generate_signals df).signal.getD t 0 -
          (generate_signals df).signal.getD (t - 1) 0)) := by
  refine ⟨?_, ?_, ?_, ?_⟩
  · intro t a b ha hb
    have h1 : t < df.sma_short.length := getD_some_lt_length _ t a ha
    have h2 : t < df.sma_long.length := getD_some_lt_length _ t b hb
    show (List.zipWith signalCell df.sma_short df.sma_long).getD t 0 = _
    rw [getD_zipWith signalCell _ _ t none none 0 h1 h2, ha, hb]
    rfl
  · intro t h1 hnone
    have h2 : t < df.sma_long.length := by omega
    show (List.zipWith signalCell df.sma_short df.sma_long).getD t 0 = 0
    rw [getD_zipWith signalCell _ _ t none none 0 h1 h2]
    rcases hnone with h | h
    · rw [h]; cases df.sma_long.getD t none <;> rfl
    · rw [h]; cases df.sma_short.getD t none <;> rfl
  · intro x rest hx
    show (diffCol (generate_signals df).signal).getD 0 none = none
    rw [hx]
    rfl
  · intro t h0 ht
    exact diffCol_getD _ t h0 ht

/-- C2 witness: at bar 2 of the 5-bar scenario both SMAs are defined and
the crossover comparison fires; at bar 0 the Signal is `0`. -/
theorem C2_witness :
    (calculate_moving_averages 2 3 (mkFrame [100, 102, 101, 105, 107])).sma_short.getD 2 none
      = some (203 / 2) ∧
    (calculate_moving_averages 2 3 (mkFrame [100, 102, 101, 105, 107])).sma_long.getD 2 none
      = some 101 ∧
    (generate_signals
      (calculate_moving_averages 2 3 (mkFrame [100, 102, 101, 105, 107]))).signal.getD 2 0
      = 1 ∧
    (generate_signals
      (calculate_moving_averages 2 3 (mkFrame [100, 102, 101, 105, 107]))).signal.getD 0 0
      = 0 ∧
    (generate_signals
      (calculate_moving_averages 2 3 (mkFrame [100, 102, 101, 105, 107]))).position.getD 2 none
      = some 1 := by
  have h := C2_signal_semantics
    (calculate_moving_averages 2 3 (mkFrame [100, 102, 101, 105, 107])) (by rfl)
  have hshort : (calculate_moving_averages 2 3
      (mkFrame [100, 102, 101, 105, 107])).sma_short.getD 2 none = some (203 / 2) := by
    norm_num [calculate_moving_averages, mkFrame, rollingMean, List.range_succ]
  have hlong : (calculate_moving_averages 2 3
      (mkFrame [100, 102, 101, 105, 107])).sma_long.getD 2 none = some 101 := by
    norm_num [calculate_moving_averages, mkFrame, rollingMean, List.range_succ]
  refine ⟨hshort, hlong, ?_, ?_, ?_⟩
  · have := h.1 2 (203 / 2) 101 hshort hlong
    rw [this]
    norm_num
  · refine h.2.1 0 (by decide) (Or.inr ?_)
    norm_num [calculate_moving_averages, mkFrame, rollingMean, List.range_succ]
  · have := h.2.2.2 2 (by decide) (by decide)
    rw [this]
    norm_num [generate_signals, calculate_moving_averages, mkFrame, rollingMean,
      signalCell, List.range_succ]

/-- C10: with positive windows `s ≤ l`, `2 ≤ l ≤ n` (so that leading
bars exist), `generate_signals` assigns the out-of-range value `0` at
every leading bar, and at the first bar where both SMAs are defined the
Position equals that bar's Signal minus `0`, i.e. `+1` or `−1`. -/
theorem C10_leading_zero_signal (s l : Nat) (closes : List ℚ)
    (hs : 0 < s) (hsl : s ≤ l) (h2 : 2 ≤ l) (hln : l ≤ closes.length) :
    (∀ t, t < l - 1 →
      (generate_signals (calculate_moving_averages s l (mkFrame closes))).signal.getD t 99
        = 0) ∧
    ((generate_signals (calculate_moving_averages s l (mkFrame closes))).position.getD (l - 1)
        none =
      some ((generate_signals
        (calculate_moving_averages s l (mkFrame closes))).signal.getD (l - 1) 0)) ∧
    ((generate_signals (calculate_moving_averages s l (mkFrame closes))).signal.getD (l - 1) 0
        = 1 ∨
     (generate_signals (calculate_moving_averages s l (mkFrame closes))).signal.getD (l - 1) 0
        = -1) := by
  set df := calculate_moving_averages s l (mkFrame closes) with hdf
  have hshort : df.sma_short = rollingMean s closes := rfl
  have hlong : df.sma_long = rollingMean l closes := rfl
  have hlens : df.sma_short.length = closes.length := by rw [hshort, length_rollingMean]
  have hlenl : df.sma_long.length = closes.length := by rw [hlong, length_rollingMean]
  have hsig : (generate_signals df).signal = List.zipWith signalCell df.sma_short df.sma_long :=
    rfl
  have hsiglen : (generate_signals df).signal.length = closes.length := by
    rw [hsig]; simp [hlens, hlenl]
  have hzero : ∀ t, t < l - 1 → (generate_signals df).signal.getD t 99 = 0 := by
    intro t htl
    have ht : t < closes.length := by omega
    rw [hsig, getD_zipWith signalCell _ _ t none none 99 (by omega) (by omega)]
    have : df.sma_long.getD t none = none := by
      rw [hlong, rollingMean_getD l closes t ht, if_neg (by omega)]
    rw [this]
    cases df.sma_short.getD t none <;> rfl
  refine ⟨hzero, ?_, ?_⟩
  · have hpos := diffCol_getD (generate_signals df).signal (l - 1) (by omega) (by omega)
    have hz : (generate_signals df).signal.getD (l - 1 - 1) 0 = 0 := by
      have h99 : ∀ (d : ℚ), (generate_signals df).signal.getD (l - 1 - 1) d =
          (generate_signals df).signal.getD (l - 1 - 1) 99 := by
        intro d
        rw [List.getD_eq_getElem _ _ (by omega), List.getD_eq_getElem _ _ (by omega)]
      rw [h99 0, hzero (l - 1 - 1) (by omega)]
    show (diffCol (generate_signals df).signal).getD (l - 1) none = _
    rw [hpos, hz, sub_zero]
  · have hidx1 : l - 1 + 1 - s = l - s := by omega
    have hidx2 : l - 1 + 1 - l = 0 := by omega
    have hb : df.sma_short.getD (l - 1) none =
        some (((closes.drop (l - s)).take s).sum / (s : ℚ)) := by
      rw [hshort, rollingMean_getD s closes (l - 1) (by omega), if_pos (by omega), hidx1]
    have hc : df.sma_long.getD (l - 1) none =
        some (((closes.drop 0).take l).sum / (l : ℚ)) := by
      rw [hlong, rollingMean_getD l closes (l - 1) (by omega), if_pos (by omega), hidx2]
    rw [hsig, getD_zipWith signalCell _ _ (l - 1) none none 0 (by omega) (by omega), hb, hc,
      signalCell]
    split
    · exact Or.inl rfl
    · exact Or.inr rfl

/-- C10 witness: `s = 2`, `l = 3`, `Close = [100, 102, 101, 105, 107]`:
Signal is `0` on bars 0 and 1 and the first Position value is `+1`. -/
theorem C10_witness :
    (generate_signals
      (calculate_moving_averages 2 3 (mkFrame [100, 102, 101, 105, 107]))).signal.getD 1 99
      = 0 ∧
    (generate_signals
      (calculate_moving_averages 2 3 (mkFrame [100, 102, 101, 105, 107]))).position.getD 2 none
      = some 1 ∧
    ((generate_signals
      (calculate_moving_averages 2 3 (mkFrame [100, 102, 101, 105, 107]))).signal.getD 2 0 = 1 ∨
     (generate_signals
      (calculate_moving_averages 2 3 (mkFrame [100, 102, 101, 105, 107]))).signal.getD 2 0 = -1)
    := by
  have h := C10_leading_zero_signal 2 3 [100, 102, 101, 105, 107]
    (by decide) (by decide) (by decide) (by decide)
  refine ⟨h.1 1 (by decide), ?_, h.2.2⟩
  rw [h.2.1]
  norm_num [generate_signals, calculate_moving_averages, mkFrame, rollingMean,
    signalCell, List.range_succ]

/-! ## C6: position transition algebra -/

lemma telescope_Ioc (f : ℕ → ℚ) (a b : ℕ) (hab : a ≤ b) :
    ∑ t in Finset.Ioc a b, (f t - f (t - 1)) = f b - f a := by
  induction b with
  | zero =>
      have ha : a = 0 := by omega
      subst ha
      simp
  | succ n ih =>
      rcases Nat.lt_or_ge a (n + 1) with h | h
      · have ha : a ≤ n := by omega
        rw [Finset.sum_Ioc_succ_top (by omega), ih ha]
        have : n + 1 - 1 = n := rfl
        rw [this]
        ring
      · have ha : a = n + 1 := by omega
        subst ha
        simp

/-- C6: for a signal column whose entries all lie in `{−1, +1}` (a
SignalSeries in the sense of the data model), `Position = Signal.diff()`
is undefined on the first bar; at every bar `t ≥ 1` it equals
`Signal[t] − Signal[t−1]`, lies in `{−2, 0, +2}`, and is nonzero exactly
when the signal changes; and the sum of the per-bar position values over
any contiguous run whose end bars carry the same signal (in particular
any run strictly between two consecutive changes) is `0`. -/
theorem C6_position_transitions (df : Frame)
    (hpm : ∀ x ∈ (generate_signals df).signal, x = 1 ∨ x = -1) :
    (∀ x rest, (generate_signals df).signal = x :: rest →
      (generate_signals df).position.getD 0 none = none) ∧
    (∀ t, 0 < t → t < (generate_signals df).signal.length →
      (generate_signals df).position.getD t none =
        some ((generate_signals df).signal.getD t 0 -
          (generate_signals df).signal.getD (t - 1) 0) ∧
      ((generate_signals df).signal.getD t 0 - (generate_signals df).signal.getD (t - 1) 0
          = -2 ∨
       (generate_signals df).signal.getD t 0 - (generate_signals df).signal.getD (t - 1) 0
          = 0 ∨
       (generate_signals df).signal.getD t 0 - (generate_signals df).signal.getD (t - 1) 0
          = 2) ∧
      ((generate_signals df).signal.getD t 0 - (generate_signals df).signal.getD (t - 1) 0
          ≠ 0 ↔
        (generate_signals df).signal.getD t 0 ≠ (generate_signals df).signal.getD (t - 1) 0)) ∧
    (∀ a b, a ≤ b → b < (generate_signals df).signal.length →
      (generate_signals df).signal.getD a 0 = (generate_signals df).signal.getD b 0 →
      ∑ t in Finset.Ioc a b,
        ((generate_signals df).signal.getD t 0 -
          (generate_signals df).signal.getD (t - 1) 0) = 0) := by
  set sig := (generate_signals df).signal with hsig
  have hmem : ∀ t, t < sig.length → sig.getD t 0 = 1 ∨ sig.getD t 0 = -1 := by
    intro t ht
    rw [List.getD_eq_getElem _ _ ht]
    exact hpm _ (List.getElem_mem ht)
  refine ⟨?_, ?_, ?_⟩
  · intro x rest hx
    show (diffCol sig).getD 0 none = none
    rw [hx]
    rfl
  · intro t h0 ht
    refine ⟨diffCol_getD sig t h0 ht, ?_, ?_⟩
    · rcases hmem t ht with h1 | h1 <;> rcases hmem (t - 1) (by omega) with h2 | h2 <;>
        rw [h1, h2] <;> norm_num
    · constructor
      · intro hne heq
        exact hne (by rw [heq, sub_self])
      · intro hne hsub
        exact hne (by linarith [sub_eq_zero.mp hsub])
  · intro a b hab hb heq
    rw [telescope_Ioc (fun t => sig.getD t 0) a b hab, heq, sub_self]

/-- C6 witness: a frame whose SMAs are defined on every bar, giving the
signal `[1, −1, −1]`: the position column is `[NaN, −2, 0]`, the change
sits exactly at the sign flip, and the run `[1, 2]` (after the change)
sums to `0`. -/
theorem C6_witness :
    (∀ x ∈ (generate_signals
      { close := [1, 2, 3], sma_short := [some 2, some 1, some 1],
        sma_long := [some 1, some 2, some 2] : Frame }).signal, x = 1 ∨ x = -1) ∧
    (generate_signals
      { close := [1, 2, 3], sma_short := [some 2, some 1, some 1],
        sma_long := [some 1, some 2, some 2] : Frame }).position.getD 1 none = some (-2) ∧
    ∑ t in Finset.Ioc 1 2,
      ((generate_signals
        { close := [1, 2, 3], sma_short := [some 2, some 1, some 1],
          sma_long := [some 1, some 2, some 2] : Frame }).signal.getD t 0 -
       (generate_signals
        { close := [1, 2, 3], sma_short := [some 2, some 1, some 1],
          sma_long := [some 1, some 2, some 2] : Frame }).signal.getD (t - 1) 0) = 0 := by
  have hpm : ∀ x ∈ (generate_signals
      { close := [1, 2, 3], sma_short := [some 2, some 1, some 1],
        sma_long := [some 1, some 2, some 2] : Frame }).signal, x = 1 ∨ x = -1 := by
    norm_num [generate_signals, signalCell]
  have h := C6_position_transitions _ hpm
  refine ⟨hpm, ?_, ?_⟩
  · rw [(h.2.1 1 (by decide) (by norm_num [generate_signals, signalCell])).1]
    norm_num [generate_signals, signalCell]
  · refine h.2.2 1 2 (by decide) (by norm_num [generate_signals, signalCell]) ?_
    norm_num [generate_signals, signalCell]

/-! ## C3: RSI -/

lemma rollingMean_getD_nonneg (w : Nat) (xs : List ℚ) (t : Nat) (v : ℚ)
    (hxs : ∀ x ∈ xs, 0 ≤ x) (h : (rollingMean w xs).getD t none = some v) : 0 ≤ v := by
  have ht : t < xs.length := by
    have := getD_some_lt_length _ t v h
    rwa [length_rollingMean] at this
  rw [rollingMean_getD w xs t ht] at h
  split at h
  · rw [Option.some_inj] at h
    subst h
    apply div_nonneg
    · apply List.sum_nonneg
      intro x hx
      exact hxs x (List.mem_of_mem_drop (List.mem_of_mem_take hx))
    · positivity
  · cases h

lemma gains_nonneg (closes : List ℚ) : ∀ x ∈ (diffCol closes).map gainCell, 0 ≤ x := by
  intro x hx
  obtain ⟨d, _, rfl⟩ := List.mem_map.mp hx
  cases d with
  | none => simp [gainCell]
  | some d =>
      simp only [gainCell]
      split <;> [linarith; simp]

lemma losses_nonneg (closes : List ℚ) : ∀ x ∈ (diffCol closes).map lossCell, 0 ≤ x := by
  intro x hx
  obtain ⟨d, _, rfl⟩ := List.mem_map.mp hx
  cases d with
  | none => simp [lossCell]
  | some d =>
      simp only [lossCell]
      split <;> [linarith; simp]

/-- C3 counterexample: with `period = 2` and the constant series
`Close = [5, 5, 5]`, bar 1 has `avgGain = 0` and `avgLoss = 0`, yet the
RSI column holds NaN there (`0/0` propagates), not the claimed `50`; and
the behaviour comes from float arithmetic, not an explicit branch. -/
theorem C3_counterexample :
    (avgGain 2 [5, 5, 5]).getD 1 none = some 0 ∧
    (avgLoss 2 [5, 5, 5]).getD 1 none = some 0 ∧
    (calculate_rsi 2 [5, 5, 5]).getD 1 (some 50) = none := by
  refine ⟨?_, ?_, ?_⟩ <;>
    norm_num [avgGain, avgLoss, calculate_rsi, rollingMean, diffCol, gainCell, lossCell,
      rsiCell, List.range_succ]

/-- C3 (amended): at every bar where the trailing averages are defined,
the RSI written by `calculate_rsi` equals `100` exactly when
`avgLoss = 0` and `avgGain > 0` (via the float collapse of
`100 − 100/(1 + x/0)`, not an explicit policy); when `avgGain` and
`avgLoss` are both `0` the RSI is undefined (NaN from `0/0`), not `50`;
and every defined RSI value lies in `[0, 100]`. -/
theorem C3_rsi_range_and_degenerates (p : Nat) (closes : List ℚ) (t : Nat) (g l : ℚ)
    (hg : (avgGain p closes).getD t none = some g)
    (hl : (avgLoss p closes).getD t none = some l) :
    ((calculate_rsi p closes).getD t none = some 100 ↔ l = 0 ∧ 0 < g) ∧
    (g = 0 ∧ l = 0 → (calculate_rsi p closes).getD t none = none) ∧
    (∀ x, (calculate_rsi p closes).getD t none = some x → 0 ≤ x ∧ x ≤ 100) := by
  have hgt : t < (avgGain p closes).length := getD_some_lt_length _ t g hg
  have hlt : t < (avgLoss p closes).length := getD_some_lt_length _ t l hl
  have hg0 : 0 ≤ g := rollingMean_getD_nonneg p _ t g (gains_nonneg closes) hg
  have hl0 : 0 ≤ l := rollingMean_getD_nonneg p _ t l (losses_nonneg closes) hl
  have hcell : (calculate_rsi p closes).getD t none = rsiCell (some g) (some l) := by
    rw [calculate_rsi, getD_zipWith rsiCell _ _ t none none none hgt hlt, hg, hl]
  rw [hcell]
  by_cases hlpos : 0 < l
  · have hq0 : 0 ≤ g / l := div_nonneg hg0 (le_of_lt hlpos)
    have hd1 : (1 : ℚ) ≤ 1 + g / l := by linarith
    have hdpos : (0 : ℚ) < 1 + g / l := by linarith
    have hfrac_pos : 0 < 100 / (1 + g / l) := by positivity
    have hfrac_le : 100 / (1 + g / l) ≤ 100 := by
      calc 100 / (1 + g / l) ≤ 100 / 1 := by
            apply div_le_div_of_nonneg_left (by norm_num) (by norm_num) hd1
        _ = 100 := by norm_num
    refine ⟨?_, ?_, ?_⟩
    · rw [rsiCell, if_pos hlpos]
      constructor
      · intro h
        rw [Option.some_inj] at h
        linarith
      · rintro ⟨rfl, -⟩
        exact absurd hlpos (by norm_num)
    · rintro ⟨-, rfl⟩
      exact absurd hlpos (by norm_num)
    · intro x hx
      rw [rsiCell, if_pos hlpos, Option.some_inj] at hx
      constructor <;> linarith [hx]
  · have hl0' : l = 0 := le_antisymm (not_lt.mp hlpos) hl0
    subst hl0'
    by_cases hgpos : 0 < g
    · refine ⟨?_, ?_, ?_⟩
      · rw [rsiCell, if_neg hlpos, if_pos hgpos]
        exact ⟨fun _ => ⟨rfl, hgpos⟩, fun _ => rfl⟩
      · rintro ⟨rfl, -⟩
        exact absurd hgpos (by norm_num)
      · intro x hx
        rw [rsiCell, if_neg hlpos, if_pos hgpos, Option.some_inj] at hx
        subst hx
        norm_num
    · refine ⟨?_, ?_, ?_⟩
      · rw [rsiCell, if_neg hlpos, if_neg hgpos]
        constructor
        · intro h
          cases h
        · rintro ⟨-, h⟩
          exact absurd h hgpos
      · intro _
        rw [rsiCell, if_neg hlpos, if_neg hgpos]
      · intro x hx
        rw [rsiCell, if_neg hlpos, if_neg hgpos] at hx
        cases hx

/-- C3 witness: `period = 2`, `Close = [5, 6, 6, 6]`: at bar 1 the
average gain is `1/2`, the average loss is `0`, and the RSI collapses to
exactly `100`. -/
theorem C3_witness :
    (avgGain 2 [5, 6, 6, 6]).getD 1 none = some (1 / 2) ∧
    (avgLoss 2 [5, 6, 6, 6]).getD 1 none = some 0 ∧
    (calculate_rsi 2 [5, 6, 6, 6]).getD 1 none = some 100 ∧
    (0 : ℚ) ≤ 100 ∧ (100 : ℚ) ≤ 100 := by
  have hg : (avgGain 2 [5, 6, 6, 6]).getD 1 none = some (1 / 2) := by
    norm_num [avgGain, rollingMean, diffCol, gainCell, List.range_succ]
  have hl : (avgLoss 2 [5, 6, 6, 6]).getD 1 none = some 0 := by
    norm_num [avgLoss, rollingMean, diffCol, lossCell, List.range_succ]
  have h := C3_rsi_range_and_degenerates 2 [5, 6, 6, 6] 1 (1 / 2) 0 hg hl
  have h100 : (calculate_rsi 2 [5, 6, 6, 6]).getD 1 none = some 100 :=
    h.1.mpr ⟨rfl, by norm_num⟩
  exact ⟨hg, hl, h100, (h.2.2 100 h100).1, (h.2.2 100 h100).2⟩

/-! ## C4: MACD and the `ewm` weighting -/

lemma length_ewmMean (span : Nat) (xs : List ℚ) : (ewmMean span xs).length = xs.length := by
  simp [ewmMean]

lemma ewmMean_getD (span : Nat) (xs : List ℚ) (t : Nat) (ht : t < xs.length) :
    (ewmMean span xs).getD t 0 =
      (∑ i in Finset.range (t + 1), (1 - ewmAlpha span) ^ i * xs.getD (t - i) 0)
      / (∑ i in Finset.range (t + 1), (1 - ewmAlpha span) ^ i) := by
  have hlen : t < (ewmMean span xs).length := by rw [length_ewmMean]; exact ht
  rw [List.getD_eq_getElem _ _ hlen]
  simp [ewmMean]

lemma ewmMean_getD_zero (span : Nat) (c : ℚ) (rest : List ℚ) :
    (ewmMean span (c :: rest)).getD 0 0 = c := by
  rw [ewmMean_getD span (c :: rest) 0 (by simp)]
  simp

/-- C4 counterexample: with `Close = [0, 1]` and a fast span of `3`
(`α = 1/2`), `calculate_macd` produces `EMA_fast[1] = 2/3` — the
`adjust=True` weighted average `(1·1 + (1/2)·0) / (1 + 1/2)` — whereas
the claimed recursion `EMA[1] = α·Close[1] + (1−α)·EMA[0]` gives `1/2`. -/
theorem C4_counterexample :
    (calculate_macd 3 26 9 [0, 1]).ema_fast.getD 1 0 = 2 / 3 ∧
    ewmAlpha 3 * 1 + (1 - ewmAlpha 3) * ((calculate_macd 3 26 9 [0, 1]).ema_fast.getD 0 0)
      = 1 / 2 ∧
    (2 / 3 : ℚ) ≠ 1 / 2 := by
  refine ⟨?_, ?_, by norm_num⟩ <;>
    norm_num [calculate_macd, ewmMean, ewmAlpha, List.range_succ, Finset.sum_range_succ]

/-- C4 (amended): the EMA columns of `calculate_macd` follow the pandas
`adjust=True` weighting
`EMA[t] = (Σ_{i≤t} (1−α)^i·Close[t−i]) / (Σ_{i≤t} (1−α)^i)` with
`α = 2/(span+1)` — which still seeds `EMA[0] = Close[0]` but does not
satisfy the recursion `EMA[t] = α·Close[t] + (1−α)·EMA[t−1]` in general;
`MACD = EMA_fast − EMA_slow` per bar, `Signal_line` is the same adjusted
EMA of the MACD column with span `signal`, `MACD_hist = MACD −
Signal_line` per bar, and no column has leading undefined bars (all five
columns are total and have the length of the input). -/
theorem C4_macd_adjusted_ema (fast slow sg : Nat) (closes : List ℚ) :
    ((calculate_macd fast slow sg closes).ema_fast.length = closes.length ∧
     (calculate_macd fast slow sg closes).ema_slow.length = closes.length ∧
     (calculate_macd fast slow sg closes).macd.length = closes.length ∧
     (calculate_macd fast slow sg closes).signal_line.length = closes.length ∧
     (calculate_macd fast slow sg closes).macd_hist.length = closes.length) ∧
    (∀ c rest, closes = c :: rest →
      (calculate_macd fast slow sg closes).ema_fast.getD 0 0 = c ∧
      (calculate_macd fast slow sg closes).ema_slow.getD 0 0 = c) ∧
    (∀ t, t < closes.length →
      (calculate_macd fast slow sg closes).ema_fast.getD t 0 =
        (∑ i in Finset.range (t + 1), (1 - ewmAlpha fast) ^ i * closes.getD (t - i) 0)
        / (∑ i in Finset.range (t + 1), (1 - ewmAlpha fast) ^ i)) ∧
    (∀ t, t < closes.length →
      (calculate_macd fast slow sg closes).macd.getD t 0 =
        (calculate_macd fast slow sg closes).ema_fast.getD t 0 -
        (calculate_macd fast slow sg closes).ema_slow.getD t 0) ∧
    ((calculate_macd fast slow sg closes).signal_line =
      ewmMean sg (calculate_macd fast slow sg closes).macd) ∧
    (∀ t, t < closes.length →
      (calculate_macd fast slow sg closes).macd_hist.getD t 0 =
        (calculate_macd fast slow sg closes).macd.getD t 0 -
        (calculate_macd fast slow sg closes).signal_line.getD t 0) := by
  have hef : (calculate_macd fast slow sg closes).ema_fast = ewmMean fast closes := rfl
  have hes : (calculate_macd fast slow sg closes).ema_slow = ewmMean slow closes := rfl
  have hm : (calculate_macd fast slow sg closes).macd =
      List.zipWith (· - ·) (ewmMean fast closes) (ewmMean slow closes) := rfl
  have hmlen : (calculate_macd fast slow sg closes).macd.length = closes.length := by
    rw [hm]
    simp [length_ewmMean]
  have hsl : (calculate_macd fast slow sg closes).signal_line =
      ewmMean sg (calculate_macd fast slow sg closes).macd := rfl
  refine ⟨⟨by rw [hef, length_ewmMean], by rw [hes, length_ewmMean], hmlen, ?_, ?_⟩,
    ?_, ?_, ?_, hsl, ?_⟩
  · rw [hsl, length_ewmMean, hmlen]
  · show (List.zipWith (· - ·) (calculate_macd fast slow sg closes).macd
      (calculate_macd fast slow sg closes).signal_line).length = closes.length
    rw [hsl, List.length_zipWith, length_ewmMean, hmlen]
    simp
  · intro c rest hc
    subst hc
    rw [hef, hes]
    exact ⟨ewmMean_getD_zero fast c rest, ewmMean_getD_zero slow c rest⟩
  · intro t ht
    rw [hef]
    exact ewmMean_getD fast closes t ht
  · intro t ht
    rw [hm, hef, hes,
      getD_zipWith (· - ·) (ewmMean fast closes) (ewmMean slow closes) t 0 0 0
        (by rw [length_ewmMean]; exact ht) (by rw [length_ewmMean]; exact ht)]
  · intro t ht
    show (List.zipWith (· - ·) (calculate_macd fast slow sg closes).macd
      (calculate_macd fast slow sg closes).signal_line).getD t 0 = _
    rw [getD_zipWith (· - ·) _ _ t 0 0 0 (by omega)
      (by rw [hsl, length_ewmMean]; omega)]

/-- C4 witness: the length/seed/difference facts evaluated on
`Close = [0, 1]` with spans `3/26/9`. -/
theorem C4_witness :
    (calculate_macd 3 26 9 [0, 1]).ema_fast.length = 2 ∧
    (calculate_macd 3 26 9 [0, 1]).ema_fast.getD 0 0 = 0 ∧
    (calculate_macd 3 26 9 [0, 1]).macd.getD 1 0 =
      (calculate_macd 3 26 9 [0, 1]).ema_fast.getD 1 0 -
      (calculate_macd 3 26 9 [0, 1]).ema_slow.getD 1 0 ∧
    (calculate_macd 3 26 9 [0, 1]).macd_hist.getD 1 0 =
      (calculate_macd 3 26 9 [0, 1]).macd.getD 1 0 -
      (calculate_macd 3 26 9 [0, 1]).signal_line.getD 1 0 := by
  have h := C4_macd_adjusted_ema 3 26 9 [0, 1]
  exact ⟨h.1.1, (h.2.1 0 [1] rfl).1, h.2.2.2.1 1 (by decide), h.2.2.2.2.2 1 (by decide)⟩

/-! ## Backtest columns: NaN-free tails of the return/portfolio columns -/

/-- The defined tail of `pct_change` (bars `1, …, n−1`). -/
def pctPlain (closes : List ℚ) : List ℚ :=
  match closes with
  | [] => []
  | x :: rest => List.zipWith (fun cur prev => (cur - prev) / prev) rest (x :: rest)

/-- The defined tail of `Strategy_returns` (bars `1, …, n−1`). -/
def srsPlain (closes sig : List ℚ) : List ℚ :=
  List.zipWith (fun p r => p * r) sig.dropLast (pctPlain closes)

/-- Running product with accumulator (the NaN-free core of `cumprod`). -/
def cumprodPlain (acc : ℚ) : List ℚ → List ℚ
  | [] => []
  | v :: vs => (acc * v) :: cumprodPlain (acc * v) vs

/-- The defined tail of `Portfolio_value` (bars `1, …, n−1`). -/
def pvPlain (closes sig : List ℚ) (ic : ℚ) : List ℚ :=
  (cumprodPlain 1 ((srsPlain closes sig).map (fun r => 1 + r))).map (fun v => ic * v)

lemma length_pct_change (xs : List ℚ) : (pct_change xs).length = xs.length := by
  cases xs <;> simp [pct_change]

lemma length_shift1 (xs : List ℚ) : (shift1 xs).length = xs.length := by
  cases xs <;> simp [shift1]

lemma length_strategyReturns (closes sig : List ℚ) :
    (strategyReturns closes sig).length = min sig.length closes.length := by
  simp [strategyReturns, length_shift1, length_pct_change]

lemma length_cumprodSkipNA (a : ℚ) (xs : List (Option ℚ)) :
    (cumprodSkipNA a xs).length = xs.length := by
  induction xs generalizing a with
  | nil => rfl
  | cons x rest ih => cases x <;> simp [cumprodSkipNA, ih]

lemma length_portfolioCol (closes sig : List ℚ) (ic : ℚ) :
    (portfolioCol closes sig ic).length = min sig.length closes.length := by
  simp [portfolioCol, cumulativeReturns, length_cumprodSkipNA, length_strategyReturns]

lemma length_cumprodPlain (a : ℚ) (l : List ℚ) : (cumprodPlain a l).length = l.length := by
  induction l generalizing a with
  | nil => rfl
  | cons v vs ih => simp [cumprodPlain, ih]

lemma length_pctPlain (xs : List ℚ) : (pctPlain xs).length = xs.length - 1 := by
  cases xs <;> simp [pctPlain]

lemma length_srsPlain (closes sig : List ℚ) :
    (srsPlain closes sig).length = min (sig.length - 1) (closes.length - 1) := by
  simp [srsPlain, length_pctPlain]

lemma length_pvPlain (closes sig : List ℚ) (ic : ℚ) :
    (pvPlain closes sig ic).length = min (sig.length - 1) (closes.length - 1) := by
  simp [pvPlain, length_cumprodPlain, length_srsPlain]

lemma pct_change_cons (x : ℚ) (rest : List ℚ) :
    pct_change (x :: rest) = none :: (pctPlain (x :: rest)).map some := by
  simp only [pct_change, pctPlain]
  congr 1
  rw [List.map_zipWith]

lemma zipWith_mulCell_some (A B : List ℚ) :
    List.zipWith mulCell (A.map some) (B.map some) =
      (List.zipWith (fun a b => a * b) A B).map some := by
  induction A generalizing B with
  | nil => simp
  | cons a A ih =>
      cases B with
      | nil => simp
      | cons b B => simp [mulCell, ih]

lemma strategyReturns_shape (c : ℚ) (crest : List ℚ) (s : ℚ) (srest : List ℚ) :
    strategyReturns (c :: crest) (s :: srest) =
      none :: (srsPlain (c :: crest) (s :: srest)).map some := by
  rw [strategyReturns, pct_change_cons,
    show shift1 (s :: srest) = none :: (s :: srest).dropLast.map some from rfl,
    List.zipWith_cons_cons, zipWith_mulCell_some]
  rfl

lemma cumprodSkipNA_map_some (a : ℚ) (l : List ℚ) :
    cumprodSkipNA a (l.map some) = (cumprodPlain a l).map some := by
  induction l generalizing a with
  | nil => rfl
  | cons v vs ih => simp [cumprodPlain, cumprodSkipNA, ih]

lemma cumprodPlain_getD (l : List ℚ) (a : ℚ) (t : Nat) (ht : t < l.length) :
    (cumprodPlain a l).getD t 0 = a * ∏ k in Finset.range (t + 1), l.getD k 1 := by
  induction l generalizing a t with
  | nil => simp at ht
  | cons v vs ih =>
      cases t with
      | zero => simp [cumprodPlain]
      | succ u =>
          have hu : u < vs.length := by simpa using ht
          simp only [cumprodPlain, List.getD_cons_succ]
          rw [ih (a * v) u hu,
            Finset.prod_range_succ' (fun k => (v :: vs).getD k 1) (u + 1)]
          simp only [List.getD_cons_succ, List.getD_cons_zero]
          ring

lemma map_optmap_some (f : ℚ → ℚ) (l : List ℚ) :
    (l.map some).map (Option.map f) = (l.map f).map some := by
  simp [List.map_map, Function.comp]

lemma portfolioCol_shape (c : ℚ) (crest : List ℚ) (s : ℚ) (srest : List ℚ) (ic : ℚ) :
    portfolioCol (c :: crest) (s :: srest) ic =
      none :: (pvPlain (c :: crest) (s :: srest) ic).map some := by
  rw [portfolioCol, cumulativeReturns, strategyReturns_shape, List.map_cons,
    map_optmap_some,
    show (Option.map (fun r => (1 : ℚ) + r) none) = none from rfl,
    show cumprodSkipNA 1 (none ::
        ((srsPlain (c :: crest) (s :: srest)).map (fun r => 1 + r)).map some) =
      none :: cumprodSkipNA 1
        (((srsPlain (c :: crest) (s :: srest)).map (fun r => 1 + r)).map some) from rfl,
    cumprodSkipNA_map_some, List.map_cons, map_optmap_some,
    show (Option.map (fun v => ic * v) none) = none from rfl]
  rfl

lemma pct_change_getD (xs : List ℚ) (t : Nat) (h0 : 0 < t) (ht : t < xs.length) :
    (pct_change xs).getD t none =
      some ((xs.getD t 0 - xs.getD (t - 1) 0) / xs.getD (t - 1) 0) := by
  cases xs with
  | nil => simp at ht
  | cons x rest =>
      obtain ⟨u, rfl⟩ : ∃ u, t = u + 1 := ⟨t - 1, by omega⟩
      have hu1 : u < rest.length := by simpa using ht
      have hu2 : u < (x :: rest).length := by simp; omega
      simp only [pct_change, List.getD_cons_succ]
      rw [getD_zipWith _ rest (x :: rest) u 0 0 none hu1 hu2]
      simp [List.getD_cons_succ]

lemma shift1_getD (xs : List ℚ) (t : Nat) (h0 : 0 < t) (ht : t < xs.length) :
    (shift1 xs).getD t none = some (xs.getD (t - 1) 0) := by
  cases xs with
  | nil => simp at ht
  | cons x rest =>
      obtain ⟨u, rfl⟩ : ∃ u, t = u + 1 := ⟨t - 1, by omega⟩
      have hu : u < (x :: rest).dropLast.length := by
        simp at ht ⊢
        omega
      simp only [shift1, List.getD_cons_succ]
      rw [getD_map_some _ u 0 hu]
      congr 1
      rw [List.getD_eq_getElem _ _ hu, List.getD_eq_getElem _ _ (by omega)]
      exact List.getElem_dropLast _ u hu

lemma strategyReturns_getD (closes sig : List ℚ) (t : Nat) (h0 : 0 < t)
    (ht : t < closes.length) (hlen : sig.length = closes.length) :
    (strategyReturns closes sig).getD t none =
      some (sig.getD (t - 1) 0 *
        ((closes.getD t 0 - closes.getD (t - 1) 0) / closes.getD (t - 1) 0)) := by
  rw [strategyReturns,
    getD_zipWith mulCell _ _ t none none none
      (by rw [length_shift1]; omega) (by rw [length_pct_change]; omega),
    shift1_getD sig t h0 (by omega), pct_change_getD closes t h0 ht]
  rfl

lemma srsPlain_getD (c : ℚ) (crest sig : List ℚ) (k : Nat)
    (hk : k + 1 < (c :: crest).length) (hlen : sig.length = (c :: crest).length) :
    (srsPlain (c :: crest) sig).getD k 0 =
      sig.getD k 0 * (((c :: crest).getD (k + 1) 0 - (c :: crest).getD k 0)
        / (c :: crest).getD k 0) := by
  have hlen1 : k < sig.dropLast.length := by
    simp [hlen]
    simp at hk
    omega
  have hlen2 : k < (pctPlain (c :: crest)).length := by
    rw [length_pctPlain]
    simp at hk ⊢
    omega
  rw [srsPlain, getD_zipWith _ _ _ k 0 0 0 hlen1 hlen2]
  congr 1
  · rw [List.getD_eq_getElem _ _ hlen1, List.getD_eq_getElem _ _ (by simp at hlen1 ⊢; omega)]
    exact List.getElem_dropLast _ k hlen1
  · rw [pctPlain, getD_zipWith _ crest (c :: crest) k 0 0 0
      (by simp at hk; omega) (by simp at hk ⊢; omega)]
    rw [show crest.getD k 0 = (c :: crest).getD (k + 1) 0 from rfl]

lemma pvPlain_getD (c : ℚ) (crest sig : List ℚ) (ic : ℚ) (u : Nat)
    (hu : u + 1 < (c :: crest).length) (hlen : sig.length = (c :: crest).length) :
    (pvPlain (c :: crest) sig ic).getD u 0 =
      ic * ∏ k in Finset.range (u + 1),
        (1 + sig.getD k 0 * (((c :: crest).getD (k + 1) 0 - (c :: crest).getD k 0)
          / (c :: crest).getD k 0)) := by
  have hsrs : (srsPlain (c :: crest) sig).length = (c :: crest).length - 1 := by
    rw [length_srsPlain, hlen]
    omega
  have humap : u < ((srsPlain (c :: crest) sig).map (fun r => (1 : ℚ) + r)).length := by
    rw [List.length_map, hsrs]
    omega
  have hucp : u < (cumprodPlain 1
      ((srsPlain (c :: crest) sig).map (fun r => (1 : ℚ) + r))).length := by
    rw [length_cumprodPlain]
    exact humap
  rw [pvPlain, List.getD_eq_getElem _ _ (by rw [List.length_map]; exact hucp),
    List.getElem_map, ← List.getD_eq_getElem _ 0 hucp,
    cumprodPlain_getD _ 1 u humap, one_mul]
  congr 1
  apply Finset.prod_congr rfl
  intro k hk
  have hk0 : k < (srsPlain (c :: crest) sig).length := by
    rw [hsrs]
    have := Finset.mem_range.mp hk
    omega
  rw [List.getD_eq_getElem _ _ (by rw [List.length_map]; exact hk0), List.getElem_map,
    ← List.getD_eq_getElem _ 0 hk0,
    srsPlain_getD c crest sig k (by rw [hsrs] at hk0; omega) hlen]

lemma portfolioCol_getD (closes sig : List ℚ) (ic : ℚ) (t : Nat) (h0 : 0 < t)
    (ht : t < closes.length) (hlen : sig.length = closes.length) :
    (portfolioCol closes sig ic).getD t none =
      some (ic * ∏ k in Finset.range t,
        (1 + sig.getD k 0 *
          ((closes.getD (k + 1) 0 - closes.getD k 0) / closes.getD k 0))) := by
  cases closes with
  | nil => simp at ht
  | cons c crest =>
      cases sig with
      | nil => simp at hlen
      | cons s srest =>
          obtain ⟨u, rfl⟩ : ∃ u, t = u + 1 := ⟨t - 1, by omega⟩
          rw [portfolioCol_shape, List.getD_cons_succ,
            getD_map_some _ u 0 (by rw [length_pvPlain]; simp at ht hlen ⊢; omega),
            pvPlain_getD c crest (s :: srest) ic u ht hlen]

lemma getLastD_cons_cons {α : Type} (x y : α) (rs : List α) (d : α) :
    (x :: y :: rs).getLastD d = (y :: rs).getLastD d := by
  rw [List.getLastD_cons, List.getLastD_cons, List.getLastD_cons]

lemma ilocLast_eq_getD (xs : List (Option ℚ)) (hx : xs ≠ []) :
    ilocLast xs = xs.getD (xs.length - 1) none := by
  induction xs with
  | nil => exact absurd rfl hx
  | cons x rest ih =>
      cases rest with
      | nil => rfl
      | cons y rs =>
          rw [show ilocLast (x :: y :: rs) = (x :: y :: rs).getLastD none from rfl,
            getLastD_cons_cons,
            show (y :: rs).getLastD none = ilocLast (y :: rs) from rfl,
            ih (by simp)]
          rw [show (x :: y :: rs).length - 1 = ((y :: rs).length - 1) + 1 by simp,
            List.getD_cons_succ]

/-- C1: for every series of length `n ≥ 2` with positive prices and a
signal column of the same length, `backtest` computes
`Returns[t] = (Close[t] − Close[t−1]) / Close[t−1]` (NaN at `t = 0`),
`Strategy_returns[t] = Signal[t−1] · Returns[t]` (the one-bar lag, NaN at
`t = 0`), `Portfolio_value[t] = initial_capital · Π_{k=1..t}(1 +
Strategy_returns[k])` for every `t ≥ 1`, and
`total_return = (Portfolio_value[last] − initial_capital) /
initial_capital`. -/
theorem C1_backtest_formulas (closes sig : List ℚ) (ic : ℚ)
    (h2 : 2 ≤ closes.length) (hlen : sig.length = closes.length)
    (hpos : ∀ c ∈ closes, 0 < c) :
    (pct_change closes).getD 0 none = none ∧
    (∀ t, 0 < t → t < closes.length →
      (pct_change closes).getD t none =
        some ((closes.getD t 0 - closes.getD (t - 1) 0) / closes.getD (t - 1) 0)) ∧
    (strategyReturns closes sig).getD 0 none = none ∧
    (∀ t, 0 < t → t < closes.length →
      (strategyReturns closes sig).getD t none =
        some (sig.getD (t - 1) 0 *
          ((closes.getD t 0 - closes.getD (t - 1) 0) / closes.getD (t - 1) 0))) ∧
    (∀ t, 0 < t → t < closes.length →
      (backtest closes sig ic).portfolio_value.getD t none =
        some (ic * ∏ k in Finset.range t,
          (1 + sig.getD k 0 *
            ((closes.getD (k + 1) 0 - closes.getD k 0) / closes.getD k 0)))) ∧
    (backtest closes sig ic).total_return =
      some ((ic * ∏ k in Finset.range (closes.length - 1),
        (1 + sig.getD k 0 *
          ((closes.getD (k + 1) 0 - closes.getD k 0) / closes.getD k 0)) - ic) / ic) := by
  obtain ⟨c, crest, rfl⟩ : ∃ c crest, closes = c :: crest := by
    cases closes with
    | nil => simp at h2
    | cons c crest => exact ⟨c, crest, rfl⟩
  obtain ⟨s, srest, rfl⟩ : ∃ s srest, sig = s :: srest := by
    cases sig with
    | nil => simp at hlen
    | cons s srest => exact ⟨s, srest, rfl⟩
  have hpv : (backtest (c :: crest) (s :: srest) ic).portfolio_value =
      portfolioCol (c :: crest) (s :: srest) ic := rfl
  refine ⟨by rw [pct_change_cons]; rfl,
    fun t h0 ht => pct_change_getD _ t h0 ht,
    by rw [strategyReturns_shape]; rfl,
    fun t h0 ht => strategyReturns_getD _ _ t h0 ht hlen,
    fun t h0 ht => by rw [hpv, portfolioCol_getD _ _ ic t h0 ht hlen],
    ?_⟩
  have hne : portfolioCol (c :: crest) (s :: srest) ic ≠ [] := by
    have := length_portfolioCol (c :: crest) (s :: srest) ic
    intro hcon
    rw [hcon] at this
    simp [hlen] at this
  have hlast : (ilocLast (portfolioCol (c :: crest) (s :: srest) ic)) =
      some (ic * ∏ k in Finset.range ((c :: crest).length - 1),
        (1 + (s :: srest).getD k 0 *
          (((c :: crest).getD (k + 1) 0 - (c :: crest).getD k 0)
            / (c :: crest).getD k 0))) := by
    rw [ilocLast_eq_getD _ hne,
      show (portfolioCol (c :: crest) (s :: srest) ic).length = (c :: crest).length by
        rw [length_portfolioCol, hlen]; simp]
    exact portfolioCol_getD _ _ ic ((c :: crest).length - 1) (by simp at h2 ⊢; omega)
      (by omega) hlen
  show (ilocLast (portfolioCol (c :: crest) (s :: srest) ic)).map
      (fun v => (v - ic) / ic) = _
  rw [hlast]
  rfl

/-- C1 witness: `Close = [1, 2]`, `Signal = [1, 1]`,
`initial_capital = 100`: one +100 % bar gives `Portfolio_value[1] = 200`
and `total_return = 1`. -/
theorem C1_witness :
    (2 ≤ ([1, 2] : List ℚ).length ∧ ([1, 1] : List ℚ).length = ([1, 2] : List ℚ).length ∧
      (∀ c ∈ ([1, 2] : List ℚ), 0 < c)) ∧
    (backtest [1, 2] [1, 1] 100).portfolio_value.getD 1 none = some 200 ∧
    (backtest [1, 2] [1, 1] 100).total_return = some 1 := by
  have h := C1_backtest_formulas [1, 2] [1, 1] 100 (by decide) (by decide) (by norm_num)
  refine ⟨⟨by decide, by decide, by norm_num⟩, ?_, ?_⟩
  · rw [h.2.2.2.2.1 1 (by decide) (by decide)]
    norm_num [Finset.prod_range_succ]
  · rw [h.2.2.2.2.2]
    norm_num [Finset.prod_range_succ]

/-- C8 counterexample: `backtest` with the invalid configuration
`initial_capital = −100` raises nothing and happily computes a full
result set (`Close = [1, 2]`, `Signal = [1, 1]`). -/
theorem C8_counterexample :
    (backtest [1, 2] [1, 1] (-100)).final_portfolio_value = some (-200) ∧
    (backtest [1, 2] [1, 1] (-100)).total_return = some 1 ∧
    (backtest [1, 2] [1, 1] (-100)).portfolio_value = [none, some (-200)] := by
  refine ⟨?_, ?_, ?_⟩ <;>
    norm_num [backtest, portfolioCol, cumulativeReturns, strategyReturns, shift1,
      pct_change, mulCell, cumprodSkipNA, ilocLast, optMin, minCell, drawdownCol,
      drawdownCell, cummaxSkipNA, optMean, List.getLastD]

/-- C8 (amended): the source never validates its configuration: no
window/period/span or capital check exists, and in particular a call
with `initial_capital ≤ 0` does not raise — it computes and returns a
full result (defined final value and total return, full-length portfolio
column).  Nonpositive windows are forwarded unchecked to the underlying
library. -/
theorem C8_no_validation (closes sig : List ℚ) (ic : ℚ)
    (h2 : 2 ≤ closes.length) (hlen : sig.length = closes.length) (hic : ic ≤ 0) :
    ((backtest closes sig ic).final_portfolio_value).isSome = true ∧
    ((backtest closes sig ic).total_return).isSome = true ∧
    (backtest closes sig ic).portfolio_value.length = closes.length := by
  have hpvlen : (backtest closes sig ic).portfolio_value.length = closes.length := by
    show (portfolioCol closes sig ic).length = closes.length
    rw [length_portfolioCol, hlen]
    simp
  have hne : portfolioCol closes sig ic ≠ [] := by
    intro hcon
    have := length_portfolioCol closes sig ic
    rw [hcon] at this
    simp [hlen] at this
    omega
  have hlast : (ilocLast (portfolioCol closes sig ic)).isSome = true := by
    rw [ilocLast_eq_getD _ hne,
      show (portfolioCol closes sig ic).length = closes.length by
        rw [length_portfolioCol, hlen]; simp,
      portfolioCol_getD closes sig ic (closes.length - 1) (by omega) (by omega) hlen]
    rfl
  refine ⟨hlast, ?_, hpvlen⟩
  show ((ilocLast (portfolioCol closes sig ic)).map (fun v => (v - ic) / ic)).isSome = true
  obtain ⟨v, hv⟩ := Option.isSome_iff_exists.mp hlast
  rw [hv]
  rfl

/-- C8 witness: the no-validation theorem evaluated at
`initial_capital = −100`. -/
theorem C8_witness :
    (2 ≤ ([1, 2] : List ℚ).length ∧ ([1, 1] : List ℚ).length = ([1, 2] : List ℚ).length ∧
      (-100 : ℚ) ≤ 0) ∧
    ((backtest [1, 2] [1, 1] (-100)).final_portfolio_value).isSome = true ∧
    ((backtest [1, 2] [1, 1] (-100)).total_return).isSome = true ∧
    (backtest [1, 2] [1, 1] (-100)).portfolio_value.length = 2 := by
  have h := C8_no_validation [1, 2] [1, 1] (-100) (by decide) (by decide) (by norm_num)
  exact ⟨⟨by decide, by decide, by norm_num⟩, h.1, h.2.1, h.2.2⟩

/-! ## C7: maximum drawdown -/

/-- Drawdown cells along a NaN-free path, threading the running max. -/
def ddFrom (m : ℚ) : List ℚ → List ℚ
  | [] => []
  | v :: vs => (v - max m v) / max m v :: ddFrom (max m v) vs

lemma zip_dd_map_some (vs : List ℚ) (m : ℚ) :
    List.zipWith drawdownCell (vs.map some) (cummaxSkipNA (some m) (vs.map some)) =
      (ddFrom m vs).map some := by
  induction vs generalizing m with
  | nil => rfl
  | cons v vs ih =>
      simp only [List.map_cons, cummaxSkipNA, List.zipWith_cons_cons, drawdownCell, ddFrom,
        ih]

lemma drawdownCol_shape (v : ℚ) (vs : List ℚ) :
    drawdownCol (none :: (v :: vs).map some) =
      none :: some 0 :: (ddFrom v vs).map some := by
  rw [drawdownCol]
  simp only [List.map_cons, cummaxSkipNA, List.zipWith_cons_cons, drawdownCell,
    zip_dd_map_some]
  rw [sub_self, zero_div]

lemma foldl_minCell_map_some (l : List ℚ) (a : ℚ) :
    List.foldl minCell (some a) (l.map some) = some (l.foldl min a) := by
  induction l generalizing a with
  | nil => rfl
  | cons x xs ih => simp [minCell, ih]

lemma optMin_shape (ds : List ℚ) :
    optMin (none :: some 0 :: ds.map some) = some (ds.foldl min 0) := by
  rw [optMin, List.foldl_cons, List.foldl_cons,
    show minCell none none = none from rfl, show minCell none (some 0) = some 0 from rfl]
  exact foldl_minCell_map_some ds 0

lemma foldl_min_le_init (l : List ℚ) (a : ℚ) : l.foldl min a ≤ a := by
  induction l generalizing a with
  | nil => simp
  | cons x xs ih => exact le_trans (ih (min a x)) (min_le_left a x)

lemma foldl_min_le_mem (l : List ℚ) (a y : ℚ) (hy : y ∈ l) : l.foldl min a ≤ y := by
  induction l generalizing a with
  | nil => cases hy
  | cons x xs ih =>
      rcases List.mem_cons.mp hy with rfl | hy
      · exact le_trans (foldl_min_le_init xs (min a y)) (min_le_right a y)
      · exact ih (min a x) hy

lemma foldl_min_eq_iff (l : List ℚ) (a : ℚ) : l.foldl min a = a ↔ ∀ y ∈ l, a ≤ y := by
  constructor
  · intro h y hy
    calc a = l.foldl min a := h.symm
      _ ≤ y := foldl_min_le_mem l a y hy
  · intro h
    induction l generalizing a with
    | nil => rfl
    | cons x xs ih =>
        rw [List.foldl_cons, min_eq_left (h x (by simp))]
        exact ih a (fun y hy => h y (by simp [hy]))

lemma ddFrom_nonneg_iff (vs : List ℚ) (m : ℚ) (hm : 0 < m) (hvs : ∀ x ∈ vs, 0 < x) :
    (∀ y ∈ ddFrom m vs, 0 ≤ y) ↔ List.Chain (· ≤ ·) m vs := by
  induction vs generalizing m with
  | nil =>
      simp only [ddFrom]
      constructor
      · intro _
        exact List.Chain.nil
      · intro _ y hy
        cases hy
  | cons v vs ih =>
      have hv : 0 < v := hvs v (by simp)
      have hmv : 0 < max m v := lt_of_lt_of_le hm (le_max_left m v)
      constructor
      · intro h
        have h0 : 0 ≤ (v - max m v) / max m v := h _ (by simp [ddFrom])
        have hnum : 0 ≤ v - max m v := by
          by_contra hneg
          push_neg at hneg
          have : (v - max m v) / max m v < 0 := div_neg_of_neg_of_pos hneg hmv
          linarith
        have hle : m ≤ v := by
          have h1 := le_max_left m v
          linarith
        have hmax : max m v = v := max_eq_right hle
        refine List.Chain.cons hle ?_
        refine (ih v hv (fun x hx => hvs x (by simp [hx]))).mp ?_
        intro y hy
        have : y ∈ ddFrom m (v :: vs) := by
          simp only [ddFrom, hmax]
          exact List.mem_cons_of_mem _ hy
        exact h y this
      · intro h
        rcases h with _ | ⟨hle, hch⟩
        have hmax : max m v = v := max_eq_right hle
        intro y hy
        simp only [ddFrom, hmax] at hy
        rcases List.mem_cons.mp hy with rfl | hy
        · rw [sub_self, zero_div]
        · exact (ih v hv (fun x hx => hvs x (by simp [hx]))).mpr hch y hy

/-- C7 counterexample: `Close = [1, 3, 6]`, `Signal = [−1, 1, 1]`,
`initial_capital = 10`.  The short position over a bar on which the
price triples gives a −200 % strategy return, so the portfolio path is
`[NaN, −10, −20]`: it falls below its prior peak, yet the computed
`max_drawdown` is `0` — refuting "equals 0 iff the path is
non-decreasing". -/
theorem C7_counterexample :
    (backtest [1, 3, 6] [-1, 1, 1] 10).portfolio_value =
      [none, some (-10), some (-20)] ∧
    (backtest [1, 3, 6] [-1, 1, 1] 10).max_drawdown = some 0 ∧
    ((-20 : ℚ) < -10) := by
  refine ⟨?_, ?_, by norm_num⟩ <;>
    norm_num [backtest, portfolioCol, cumulativeReturns, strategyReturns, shift1,
      pct_change, mulCell, cumprodSkipNA, optMin, minCell, drawdownCol, drawdownCell,
      cummaxSkipNA]

/-- C7 (amended): `max_drawdown` is the skip-NaN minimum over the bars of
`(PortfolioValue[t] − RunningMax[t]) / RunningMax[t]` with the running
max taken over the defined portfolio values so far; whenever it is
defined it is `≤ 0`; and provided every defined portfolio value is
positive (true whenever no strategy return reaches −100 %), it equals `0`
iff the defined portfolio path is non-decreasing.  Without the
positivity proviso the "iff" fails (see the counterexample). -/
theorem C7_max_drawdown (closes sig : List ℚ) (ic : ℚ) (v : ℚ) (vs : List ℚ) (d : ℚ)
    (hshape : (backtest closes sig ic).portfolio_value = none :: (v :: vs).map some)
    (hmd : (backtest closes sig ic).max_drawdown = some d) :
    d ≤ 0 ∧ (0 < v → (∀ x ∈ vs, 0 < x) → (d = 0 ↔ List.Chain (· ≤ ·) v vs)) := by
  have hpv : portfolioCol closes sig ic = none :: (v :: vs).map some := hshape
  have hmd' : optMin (drawdownCol (portfolioCol closes sig ic)) = some d := hmd
  rw [hpv, drawdownCol_shape, optMin_shape, Option.some_inj] at hmd'
  subst hmd'
  constructor
  · exact foldl_min_le_init _ 0
  · intro hv hvs
    constructor
    · intro h0
      exact (ddFrom_nonneg_iff vs v hv hvs).mp ((foldl_min_eq_iff (ddFrom v vs) 0).mp h0)
    · intro hch
      exact (foldl_min_eq_iff (ddFrom v vs) 0).mpr ((ddFrom_nonneg_iff vs v hv hvs).mpr hch)

/-- C7 witness: `Close = [1, 2, 1]`, `Signal = [1, 1, 1]`,
`initial_capital = 100`: the path is `[NaN, 200, 100]`, the drawdown is
`−1/2 ≤ 0`, and since `−1/2 ≠ 0` the positive path is indeed not
non-decreasing. -/
theorem C7_witness :
    ((backtest [1, 2, 1] [1, 1, 1] 100).portfolio_value =
      none :: ([200, 100] : List ℚ).map some) ∧
    (backtest [1, 2, 1] [1, 1, 1] 100).max_drawdown = some (-(1 / 2)) ∧
    (-(1 / 2) : ℚ) ≤ 0 ∧ ¬ List.Chain (· ≤ ·) (200 : ℚ) [100] := by
  have hshape : (backtest [1, 2, 1] [1, 1, 1] 100).portfolio_value =
      none :: ([200, 100] : List ℚ).map some := by
    norm_num [backtest, portfolioCol, cumulativeReturns, strategyReturns, shift1,
      pct_change, mulCell, cumprodSkipNA]
  have hmd : (backtest [1, 2, 1] [1, 1, 1] 100).max_drawdown = some (-(1 / 2)) := by
    norm_num [backtest, portfolioCol, cumulativeReturns, strategyReturns, shift1,
      pct_change, mulCell, cumprodSkipNA, optMin, minCell, drawdownCol, drawdownCell,
      cummaxSkipNA]
  have h := C7_max_drawdown [1, 2, 1] [1, 1, 1] 100 200 [100] (-(1 / 2)) hshape hmd
  refine ⟨hshape, hmd, h.1, ?_⟩
  intro hch
  have hiff := h.2 (by norm_num) (by intro x hx; simp at hx; subst hx; norm_num)
  exact absurd (hiff.mpr hch) (by norm_num)

/-! ## C9: stages never mutate the caller's frame -/

lemma readF_write_fresh (st : Store) (r : Nat) (f g : Frame) (hr : r < st.length) :
    readF ((st ++ [f]).set st.length g) r = readF st r := by
  unfold readF
  have h1 : r < ((st ++ [f]).set st.length g).length := by simp; omega
  rw [List.getD_eq_getElem _ _ h1, List.getD_eq_getElem _ _ hr,
    List.getElem_set_ne (by omega)]
  exact List.getElem_append_left hr

/-- C9: each pipeline stage copies its argument frame and writes its
columns only on the fresh copy: the caller's frame is unchanged by
`calculate_moving_averages`, `generate_signals` and `backtest`, and the
frame reference the first two return is a new one, distinct from the
input reference. -/
theorem C9_stages_preserve_input (st : Store) (r : Nat) (sw lw : Nat) (ic : ℚ)
    (hr : r < st.length) :
    readF (calculate_moving_averages_st sw lw st r).1 r = readF st r ∧
    (calculate_moving_averages_st sw lw st r).2 ≠ r ∧
    readF (generate_signals_st st r).1 r = readF st r ∧
    (generate_signals_st st r).2 ≠ r ∧
    readF (backtest_st st r ic).1 r = readF st r := by
  refine ⟨?_, ?_, ?_, ?_, ?_⟩
  · simp only [calculate_moving_averages_st, allocF, writeF]
    exact readF_write_fresh st r _ _ hr
  · simp only [calculate_moving_averages_st, allocF]
    omega
  · simp only [generate_signals_st, allocF, writeF]
    exact readF_write_fresh st r _ _ hr
  · simp only [generate_signals_st, allocF]
    omega
  · simp only [backtest_st, allocF, writeF]
    exact readF_write_fresh st r _ _ hr

/-- C9 witness: a one-frame heap; all three stages leave the frame at
reference 0 exactly as it was. -/
theorem C9_witness :
    (0 < ([mkFrame [1]] : Store).length) ∧
    readF (calculate_moving_averages_st 2 3 [mkFrame [1]] 0).1 0 = mkFrame [1] ∧
    readF (generate_signals_st [mkFrame [1]] 0).1 0 = mkFrame [1] ∧
    readF (backtest_st [mkFrame [1]] 0 100).1 0 = mkFrame [1] := by
  have h := C9_stages_preserve_input [mkFrame [1]] 0 2 3 100 (by decide)
  refine ⟨by decide, ?_, ?_, ?_⟩
  · rw [h.1]
    rfl
  · rw [h.2.2.1]
    rfl
  · rw [h.2.2.2.2]
    rfl

end TradingStrategy
